import Mathlib

/-!
Verification of the DLIT_LU data-repair and analysis pipeline
(Transport for the North, `src/dlit_lu`).

The Python source operates on pandas DataFrames; each function is embedded
here as a Lean function over explicit row lists.  Cells that may be NaN,
integers or strings are modelled by a small inductive type; pandas
elementwise `==` (under which NaN is unequal to everything, and no
string/number coercion happens) is modelled explicitly.
-/

set_option linter.unusedVariables false

namespace DLIT

/-! ## Missing/invalid value classifier (`analyse.py`) -/

/-- One cell value as it can appear in a checked column: NaN/null, an
integer, or a string (floats do not occur in the checked columns). -/
inductive MVCell where
  | nan : MVCell
  | int (z : ℤ) : MVCell
  | str (s : String) : MVCell
deriving DecidableEq, Repr

/-- pandas elementwise `==`: NaN compares unequal to everything (including
itself); otherwise exact equality, with no coercion between the string and
numeric kinds. -/
def pandasEq (a b : MVCell) : Bool :=
  match a, b with
  | MVCell.nan, _ => false
  | _, MVCell.nan => false
  | a, b => a == b

/-- A row of one of the category tables, with its identity key
(`site_reference_id`, `site_name`) and the remaining checked columns as an
association list from column name to cell value. -/
structure MVRow where
  site_reference_id : ℤ
  site_name : String
  cells : List (String × MVCell)
deriving DecidableEq, Repr

/-- `record[column]` for one row (the claims only exercise columns that are
present; a missing column, which raises `KeyError` in pandas, is mapped to
NaN). -/
def getCell (r : MVRow) (c : String) : MVCell :=
  match r.cells.find? (fun p => p.1 == c) with
  | some p => p.2
  | none => MVCell.nan

/-- `record[column].isna() | (record[column] == v for v in not_allowed)`
for one row: the cell is null/NaN or pandas-equal to a not-allowed value. -/
def cellQualifies (cell : MVCell) (notAllowed : List MVCell) : Bool :=
  (cell == MVCell.nan) || notAllowed.any (fun v => pandasEq cell v)

/-- One column's row predicate inside `find_missing_values`. -/
def rowQualifies (r : MVRow) (c : String) (notAllowed : List MVCell) : Bool :=
  cellQualifies (getCell r c) notAllowed

/-- `drop_duplicates(subset=["site_reference_id", "site_name"])`: keep the
first row for each identity key, in order. -/
def dedupByKey (l : List MVRow) : List MVRow :=
  go l []
where
  go : List MVRow → List (ℤ × String) → List MVRow
    | [], _ => []
    | r :: rest, seen =>
      if (r.site_reference_id, r.site_name) ∈ seen then go rest seen
      else r :: go rest ((r.site_reference_id, r.site_name) :: seen)

/-- `sort_values(by="site_reference_id")`. -/
def sortBySiteRef (l : List MVRow) : List MVRow :=
  l.mergeSort (fun a b => a.site_reference_id ≤ b.site_reference_id)

/-- `analyse.find_missing_values`: per column, the rows whose cell is
null/NaN or a not-allowed value; a single-column call returns that subset
directly, a multi-column call concatenates the per-column subsets,
de-duplicates by the identity key and sorts by site reference.
(A zero-column call makes `pd.concat` raise; no claim exercises it, and it
is mapped to the empty list.) -/
def find_missing_values (record : List MVRow) (columns : List String)
    (notAllowed : List MVCell) : List MVRow :=
  let missing_values_df :=
    columns.map (fun c => record.filter (fun r => rowQualifies r c notAllowed))
  match missing_values_df with
  | [df] => df
  | dfs => sortBySiteRef (dedupByKey dfs.flatten)

/-- Sample table for evaluating `find_missing_values` concretely: row 2 has
a NaN in `col_a`, row 1 has the not-allowed value 5 in `col_b`. -/
def mvSampleTable : List MVRow :=
  [⟨2, "site two", [("col_a", MVCell.nan), ("col_b", MVCell.int 1)]⟩,
   ⟨1, "site one", [("col_a", MVCell.str "x"), ("col_b", MVCell.int 5)]⟩]

/-! ## Analysis aggregator: `analyse.classify_data` -/

/-- A row of the annotated table: an identifying payload plus the boolean
filter columns, as an association list from filter-column name to value. -/
structure ClassRow where
  row_id : ℤ
  flags : List (String × Bool)
deriving DecidableEq, Repr

/-- Value of one boolean filter column for a row (the pipeline only asks
for columns it has appended; an absent column is mapped to `false`). -/
def flagValue (r : ClassRow) (name : String) : Bool :=
  match r.flags.find? (fun p => p.1 == name) with
  | some p => p.2
  | none => false

/-- `value.loc[:, names].any(axis=1)` for one row. -/
def anyFlag (r : ClassRow) (names : List String) : Bool :=
  names.any (fun n => flagValue r n)

/-- The slice of `global_classes.ResultsReport` that `classify_data`
reads: per-category annotated rows and the list of filter-column names. -/
structure ResultsReport where
  data_filter : List (String × List ClassRow)
  filter_columns : List String

/-- The five keyed outputs of `classify_data`. -/
structure Classified where
  invalid : List (String × List ClassRow)
  valid : List (String × List ClassRow)
  intervention_required : List (String × List ClassRow)
  non_fatal : List (String × List ClassRow)
  auto_fixes : List (String × List ClassRow)
deriving Repr

/-- `analyse.classify_data`: per category, `invalid` keeps the rows with
any filter column true, `valid` the rows with none, and the three report
buckets filter by their own column-name sets. -/
def classify_data (rr : ResultsReport) (auto_fix_columns : List String)
    (intervention_required_columns : List String)
    (non_fatal_columns : List String) : Classified where
  invalid := rr.data_filter.map
    (fun kv => (kv.1, kv.2.filter (fun r => anyFlag r rr.filter_columns)))
  valid := rr.data_filter.map
    (fun kv => (kv.1, kv.2.filter (fun r => !anyFlag r rr.filter_columns)))
  intervention_required := rr.data_filter.map
    (fun kv => (kv.1, kv.2.filter (fun r => anyFlag r intervention_required_columns)))
  non_fatal := rr.data_filter.map
    (fun kv => (kv.1, kv.2.filter (fun r => anyFlag r non_fatal_columns)))
  auto_fixes := rr.data_filter.map
    (fun kv => (kv.1, kv.2.filter (fun r => anyFlag r auto_fix_columns)))

/-! ## LUC lookup resolver: `data_repair.find_and_replace_luc` -/

/-- A value in the replace column of a lookup table: a single code or a
list of codes. -/
inductive Replace where
  | rstr (s : String) : Replace
  | rlst (l : List String) : Replace
deriving DecidableEq, Repr

/-- The codes a replacement contributes: a string is appended as one
element, a list is concatenated (`append` vs `+` in the source). -/
def Replace.toList : Replace → List String
  | Replace.rstr s => [s]
  | Replace.rlst l => l

/-- A lookup table: rows of (find value, replace value), in row order. -/
def LucLookup : Type := List (String × Replace)

/-- A `fill_empty_value` argument: the source accepts a single string or a
list (any other type only triggers a warning and is passed by no caller,
so it is not modelled). -/
inductive FillVal where
  | fstr (s : String) : FillVal
  | flst (l : List String) : FillVal
deriving DecidableEq, Repr

/-- One cell of a land-use-code column: a list of codes, or a malformed
value — NaN or a number — on which Python `len` raises the `TypeError`
that the source catches.  (A plain-string cell follows Python substring
semantics and can raise `AttributeError`; no claim covers it.) -/
inductive LucCell where
  | lst (l : List String) : LucCell
  | nan : LucCell
  | num (z : ℤ) : LucCell
deriving DecidableEq, Repr

/-- The inner `for _ in range(count)` loop: each iteration removes the
first occurrence of `find_code` from the working list and appends the
replacement codes at the end. -/
def repeatStep (find_code : String) (rep : List String) : ℕ → List String → List String
  | 0, l => l
  | n + 1, l => repeatStep find_code rep n ((l.erase find_code) ++ rep)

/-- The outer `for find_code in lookup_table[find_column_name]` loop.
`full` is the whole lookup table (the replacement is looked up there with
`.values[0]`, i.e. the first row whose find value matches), while the
first list argument is the tail of rows still to be visited.  A row whose
find value is absent from the current working list is skipped; otherwise
the count of occurrences is taken once and the inner loop runs that many
times. -/
def farGo (full : List (String × Replace)) :
    List (String × Replace) → List String → List String
  | [], l => l
  | row :: rest, l =>
    if row.1 ∈ l then
      match full.find? (fun r => r.1 == row.1) with
      | some r => farGo full rest (repeatStep row.1 r.2.toList (l.count row.1) l)
      | none => farGo full rest l
    else farGo full rest l

/-- The find/replace loop of `data_repair.find_and_replace_luc` on a
non-degenerate (list) cell. -/
def find_and_replace_core (lookup : List (String × Replace)) (l : List String) :
    List String :=
  farGo lookup lookup l

/-- `data_repair.find_and_replace_luc` on one cell: an empty list with a
`fill_empty_value` returns that value wholesale (string becomes a
one-element list, list is used as-is); an empty list without one returns
the empty list; a malformed cell makes `len` raise `TypeError`, which is
caught and returns the empty list; a non-empty list goes through the
find/replace loop. -/
def find_and_replace_luc (luc_entry : LucCell) (lookup : List (String × Replace))
    (fill_empty_value : Option FillVal) : LucCell :=
  match luc_entry with
  | LucCell.nan => LucCell.lst []
  | LucCell.num _ => LucCell.lst []
  | LucCell.lst l =>
    if l.length = 0 then
      match fill_empty_value with
      | some (FillVal.fstr s) => LucCell.lst [s]
      | some (FillVal.flst fl) => LucCell.lst fl
      | none => LucCell.lst []
    else LucCell.lst (find_and_replace_core lookup l)

/-- Modelled from the spec's resolver contract (for refinement
comparison): every occurrence of a token in the lookup's find column is
replaced by that token's mapped value(s), each occurrence independently,
while unmatched tokens pass through unchanged in their original relative
order (replacements appended in lookup-row order). -/
def lucSpecReplace (lookup : List (String × Replace)) (l : List String) :
    List String :=
  l.filter (fun t => !((lookup.map Prod.fst).contains t)) ++
    (lookup.map
      (fun row => (List.replicate (l.count row.1) row.2.toList).flatten)).flatten

/-! ## Missing-year inference: `data_repair.infill_one_missing_year` -/

/-- A `start_year_id` / `end_year_id` cell: an integer id, the empty
string, or NaN.  Id 14 and the empty string both mean "unset". -/
inductive YCell where
  | int (z : ℤ) : YCell
  | empty : YCell
  | nan : YCell
deriving DecidableEq, Repr

/-- The missing-year test used by `infill_one_missing_year` via
`find_multiple_missing_values` with `not_allowed = [14, ""]`: the cell is
null/NaN, equals 14, or equals the empty string. -/
def ycellMissing (y : YCell) : Bool :=
  match y with
  | YCell.int z => z == 14
  | YCell.empty => true
  | YCell.nan => true

/-- Numeric value of a year cell (only read on non-missing cells, which
are always integers). -/
def ycellVal (y : YCell) : ℤ :=
  match y with
  | YCell.int z => z
  | YCell.empty => 0
  | YCell.nan => 0

/-- One row as `infill_one_missing_year` sees it. -/
structure YearRow where
  web_tag_certainty_id : ℤ
  start_year_id : YCell
  end_year_id : YCell
deriving DecidableEq, Repr

/-- The per-row effect of `infill_one_missing_year` for one WebTAG
category with average period `period = average_year[1] - average_year[0]`.
The masked assignments compute the infilled year into `fixedVals`
(`start = end - period` clamped, resp. `end = start + period` clamped),
but the subsequent integration step
`to_be_fixed.loc[end_no_start, "start_year_id"] = end_no_start_values["end_year_id"]`
(resp. `...loc[start_no_end, "end_year_id"] = start_no_end_values["start_year_id"]`)
copies the OTHER, unmodified column of the fixed frame, so the computed
values are discarded. -/
def repairYearRow (period : ℤ) (r : YearRow) : YearRow :=
  let missingS := ycellMissing r.start_year_id
  let missingE := ycellMissing r.end_year_id
  if missingS && !missingE then
    let fixedVals : YearRow :=
      if ycellVal r.end_year_id ≤ period then
        { r with start_year_id := r.end_year_id }
      else
        { r with start_year_id := YCell.int (ycellVal r.end_year_id - period) }
    { r with start_year_id := fixedVals.end_year_id }
  else if missingE && !missingS then
    let fixedVals : YearRow :=
      if ycellVal r.start_year_id + period ≥ 14 then
        { r with end_year_id := r.start_year_id }
      else
        { r with end_year_id := YCell.int (ycellVal r.start_year_id + period) }
    { r with end_year_id := fixedVals.start_year_id }
  else r

/-- `data_repair.infill_one_missing_year` on one category table:
`average_years` lists `(webtag id, modal start, modal end)`; each row
whose WebTAG id has an entry is repaired with that category's period
(ids are dict keys, hence distinct). -/
def infill_one_missing_year (average_years : List (ℤ × ℤ × ℤ))
    (rows : List YearRow) : List YearRow :=
  average_years.foldl
    (fun acc entry =>
      acc.map (fun r =>
        if r.web_tag_certainty_id == entry.1 then
          repairYearRow (entry.2.2 - entry.2.1) r
        else r))
    rows

/-! ## Modal years: `data_repair.calc_average_years_webtag_certainty` -/

/-- One row as the modal-year statistic sees it: the `missing_years`
filter column, the WebTAG certainty id, and both year ids (rows feeding
the statistic have both years present). -/
structure TagRow where
  missing_years : Bool
  web_tag_certainty_id : ℤ
  start_year_id : ℤ
  end_year_id : ℤ
deriving DecidableEq, Repr

/-- pandas `Series.mode().values[0]`: the smallest among the values of
maximal multiplicity; `none` models the `IndexError` raised on an empty
series. -/
def pdMode (l : List ℤ) : Option ℤ :=
  (l.filter (fun x => l.all (fun y => l.count y ≤ l.count x))).min?

/-- The concatenated start years over all categories for one WebTAG id,
restricted to rows without missing years (`missing_years == False` and
`web_tag_certainty_id == id`). -/
def gatherStart (data : List (String × List TagRow)) (id : ℤ) : List ℤ :=
  (data.map (fun kv =>
    (kv.2.filter (fun r => !r.missing_years && r.web_tag_certainty_id == id)).map
      (fun r => r.start_year_id))).flatten

/-- The concatenated end years over all categories for one WebTAG id. -/
def gatherEnd (data : List (String × List TagRow)) (id : ℤ) : List ℤ :=
  (data.map (fun kv =>
    (kv.2.filter (fun r => !r.missing_years && r.web_tag_certainty_id == id)).map
      (fun r => r.end_year_id))).flatten

/-- `data_repair.calc_average_years_webtag_certainty`: for every WebTAG id
except 0, take the modal start and end year over all categories; if the
modal end precedes the modal start, clamp the end to the start.  `none`
models the `IndexError` pandas raises when a category has no data at
all. -/
def calc_average_years_webtag_certainty (data : List (String × List TagRow)) :
    List ℤ → Option (List (ℤ × ℤ × ℤ))
  | [] => some []
  | id :: rest =>
    if id == 0 then calc_average_years_webtag_certainty data rest
    else
      match pdMode (gatherStart data id), pdMode (gatherEnd data id) with
      | some mode_start_year, some mode_end_year =>
        match calc_average_years_webtag_certainty data rest with
        | some acc =>
          some ((id, mode_start_year,
            if mode_start_year > mode_end_year then mode_start_year
            else mode_end_year) :: acc)
        | none => none
      | _, _ => none

/-! ## Site-reference synthesis: `data_repair.fix_site_ref_id` -/

/-- One row as `fix_site_ref_id` sees it: the `missing_site_ref` filter
column and the (integer) site reference id. -/
structure RefRow where
  missing_site_ref : Bool
  site_reference_id : ℤ
deriving DecidableEq, Repr

/-- `value.loc[value["missing_site_ref"] == False, "site_reference_id"].max()`
— `none` models the NaN produced on an all-missing category (any
comparison with which is false). -/
def maxValidId (rows : List RefRow) : Option ℤ :=
  ((rows.filter (fun r => !r.missing_site_ref)).map
    (fun r => r.site_reference_id)).max?

/-- The first loop of `fix_site_ref_id`: the overall maximum valid id,
starting from 0 and keeping a category's maximum only when it exceeds the
running value. -/
def overallMaxGo : List (String × List RefRow) → ℤ → ℤ
  | [], acc => acc
  | kv :: rest, acc =>
    overallMaxGo rest
      (match maxValidId kv.2 with
       | some m => if m > acc then m else acc
       | none => acc)

/-- `overall_max_id_value` after the first loop of `fix_site_ref_id`. -/
def overallMaxId (data : List (String × List RefRow)) : ℤ :=
  overallMaxGo data 0

/-- The per-category assignment
`new_ids = overall_max_id_value + np.arange(1, len(missing_ids) + 1)`:
rows flagged missing receive `m + 1, m + 2, …` in row order; the second
component is the updated running maximum (`new_ids.max()`, which equals
`m` again when the category has no missing rows). -/
def assignIds : List RefRow → ℤ → List RefRow × ℤ
  | [], m => ([], m)
  | r :: rest, m =>
    if r.missing_site_ref then
      let out := assignIds rest (m + 1)
      ({ r with site_reference_id := m + 1 } :: out.1, out.2)
    else
      let out := assignIds rest m
      (r :: out.1, out.2)

/-- The second loop of `fix_site_ref_id`, threading the running maximum
category-by-category. -/
def fixRefGo : List (String × List RefRow) → ℤ → List (String × List RefRow)
  | [], _ => []
  | kv :: rest, m =>
    let out := assignIds kv.2 m
    (kv.1, out.1) :: fixRefGo rest out.2

/-- `data_repair.fix_site_ref_id`. -/
def fix_site_ref_id (data : List (String × List RefRow)) :
    List (String × List RefRow) :=
  fixRefGo data (overallMaxId data)

/-- All site reference ids across every category, in order. -/
def allSiteIds (data : List (String × List RefRow)) : List ℤ :=
  (data.map (fun kv => kv.2.map (fun r => r.site_reference_id))).flatten

/-- The ids of the rows not flagged `missing_site_ref` (unchanged by the
fix), across every category. -/
def validSiteIds (data : List (String × List RefRow)) : List ℤ :=
  (data.map (fun kv =>
    (kv.2.filter (fun r => !r.missing_site_ref)).map
      (fun r => r.site_reference_id))).flatten

/-- The ids of the rows flagged `missing_site_ref` (the synthesized ids in
the output), across every category. -/
def synthSiteIds (data : List (String × List RefRow)) : List ℤ :=
  (data.map (fun kv =>
    (kv.2.filter (fun r => r.missing_site_ref)).map
      (fun r => r.site_reference_id))).flatten

/-- Number of rows flagged `missing_site_ref` in one category. -/
def countMissing (rows : List RefRow) : ℕ :=
  (rows.filter (fun r => r.missing_site_ref)).length

/-- Total number of rows flagged `missing_site_ref`. -/
def countMissingAll (data : List (String × List RefRow)) : ℕ :=
  (data.map (fun kv => countMissing kv.2)).sum

/-- The consecutive ids `a + 1, a + 2, …, a + n`. -/
def intRange (a : ℤ) : ℕ → List ℤ
  | 0 => []
  | n + 1 => (a + 1) :: intRange (a + 1) n

/-- Sample input for `fix_site_ref_id`: one valid id (7) and two rows
flagged `missing_site_ref` spread over two categories. -/
def refSample : List (String × List RefRow) :=
  [("residential", [⟨false, 7⟩, ⟨true, 0⟩]), ("employment", [⟨true, 0⟩])]

/-! ## User-fix integration: `user_fixes.infill_user_inputs` -/

/-- One category table as `infill_user_inputs` compares and merges it:
the cells of the uneditable columns and the cells of the remaining
(editable) columns, row-major; `none` is a NaN cell. -/
structure UFTable where
  unedit : List (Option ℤ)
  edit : List (Option ℤ)
deriving DecidableEq, Repr

/-- `DataFrame.update`: a non-NA value in the user subset overrides the
original cell, an NA leaves it. -/
def updateCells (orig sub : List (Option ℤ)) : List (Option ℤ) :=
  orig.zipWith
    (fun o s =>
      match s with
      | some v => some v
      | none => o) sub

/-- `infilled_data[key].update(data_subset)` over both column groups. -/
def updateTable (orig sub : UFTable) : UFTable :=
  ⟨updateCells orig.unedit sub.unedit, updateCells orig.edit sub.edit⟩

/-- The per-category loop of `infill_user_inputs` (here with
`uneditable_columns` supplied): merge when the uneditable cells differ
from the original, raise `ValueError` when they are equal — the source's
actual branch order (`if not ... .equals(...): update else: raise`). -/
def infill_user_go (modified : String → UFTable) :
    List (String × UFTable) → Except String (List (String × UFTable))
  | [] => Except.ok []
  | kv :: rest =>
    if kv.2.unedit ≠ (modified kv.1).unedit then
      match infill_user_go modified rest with
      | Except.ok acc => Except.ok ((kv.1, updateTable kv.2 (modified kv.1)) :: acc)
      | Except.error e => Except.error e
    else Except.error "ValueError"

/-- `user_fixes.infill_user_inputs` with `uneditable_columns` supplied:
raises `FileNotFoundError` when the edited file is absent, otherwise runs
the per-category merge/raise loop.  (The per-sheet parsing and the
removal of empty strings from land-use-code lists happen while reading
`modified`; cells are abstracted to scalar values.) -/
def infill_user_inputs (fileExists : Bool) (data : List (String × UFTable))
    (modified : String → UFTable) : Except String (List (String × UFTable)) :=
  if !fileExists then Except.error "FileNotFoundError"
  else infill_user_go modified data

/-! ## Build-out profile calculator (`data_repair.py`)

The four distribution functions operate elementwise over a row's
`(unit, start_year, end_year)` against a queried `year` and the fixed
`period`; they are embedded here on one row, over `ℚ`. -/

/-- `data_repair.two_to_pow` (`2 ** x`).  The source computes a real
power; every exponent reached in the theorems below is an integer, where
this embedding is exact — a fractional exponent (whose real value is
irrational) is mapped to a junk value. -/
def two_to_pow (x : ℚ) : ℚ :=
  if x.den = 1 then (2 : ℚ) ^ x.num else 0

/-- `data_repair.flat_distribution` on one row: inside the window the
allocation is `unit / periods` with `periods = (end - start + 1) / period`,
outside it is 0. -/
def flat_distribution (unit start_year end_year year period : ℚ) : ℚ :=
  if start_year ≤ year ∧ year ≤ end_year then
    unit / ((end_year - start_year + 1) / period)
  else 0

/-- `data_repair.early_distribution` on one row:
`unit * 2 ^ (periods - ((year - start) / period + 1)) / (2 ^ periods - 1)`
inside the window, 0 outside. -/
def early_distribution (unit start_year end_year year period : ℚ) : ℚ :=
  if start_year ≤ year ∧ year ≤ end_year then
    unit *
      (two_to_pow ((end_year - start_year + 1) / period -
          ((year - start_year) / period + 1)) /
        (two_to_pow ((end_year - start_year + 1) / period) - 1))
  else 0

/-- `data_repair.late_distribution` on one row:
`unit * 2 ^ (periods - ((end - (year + (period - 1))) / period + 1)) / (2 ^ periods - 1)`
inside the window, 0 outside. -/
def late_distribution (unit start_year end_year year period : ℚ) : ℚ :=
  if start_year ≤ year ∧ year ≤ end_year then
    unit *
      (two_to_pow ((end_year - start_year + 1) / period -
          ((end_year - (year + (period - 1))) / period + 1)) /
        (two_to_pow ((end_year - start_year + 1) / period) - 1))
  else 0

/-- `data_repair.mid_distribution` on one row: with
`determinator = 1 + (year - start) / period`, rows at or before the
midpoint `(periods + 1) / 2` grow as `2 ^ ((year - start) / period)`,
later rows decay as `2 ^ (periods - ((year - start) / period + 1))`, both
normalized by
`(2 ^ floor((periods + 1) / 2) - 1) + (2 ^ floor(periods / 2) - 1)`;
0 outside the window. -/
def mid_distribution (unit start_year end_year year period : ℚ) : ℚ :=
  if start_year ≤ year ∧ year ≤ end_year then
    if 1 + (year - start_year) / period ≤
        ((end_year - start_year + 1) / period + 1) / 2 then
      unit * two_to_pow ((year - start_year) / period) /
        ((two_to_pow ((⌊((end_year - start_year + 1) / period + 1) / 2⌋ : ℤ) : ℚ) - 1) +
          (two_to_pow ((⌊((end_year - start_year + 1) / period) / 2⌋ : ℤ) : ℚ) - 1))
    else
      unit * two_to_pow ((end_year - start_year + 1) / period -
          ((year - start_year) / period + 1)) /
        ((two_to_pow ((⌊((end_year - start_year + 1) / period + 1) / 2⌋ : ℤ) : ℚ) - 1) +
          (two_to_pow ((⌊((end_year - start_year + 1) / period) / 2⌋ : ℤ) : ℚ) - 1))
  else 0

/-- The normalizing denominator of the mid distribution for an
`n`-period window. -/
def midDenom (n : ℕ) : ℚ :=
  ((2 : ℚ) ^ ((n + 1) / 2) - 1) + ((2 : ℚ) ^ (n / 2) - 1)

/-! ## Lemmas about the LUC resolver -/

lemma erase_filter_ne (a : String) (l : List String) :
    (l.erase a).filter (fun t => !(t == a)) = l.filter (fun t => !(t == a)) := by
  induction l with
  | nil => rfl
  | cons h t ih =>
    by_cases hha : h = a
    · subst hha
      rw [List.erase_cons_head]
      simp [List.filter_cons]
    · rw [List.erase_cons_tail (by simpa using hha), List.filter_cons, List.filter_cons, ih]

lemma repeatStep_closed (f : String) (rep : List String) (hf : f ∉ rep) :
    ∀ (n : ℕ) (l : List String), l.count f = n →
      repeatStep f rep n l =
        l.filter (fun t => !(t == f)) ++ (List.replicate n rep).flatten := by
  intro n
  induction n with
  | zero =>
    intro l hl
    have hmem : f ∉ l := List.count_eq_zero.mp hl
    rw [repeatStep, List.filter_eq_self.mpr ?_]
    · simp
    · intro t ht
      simp only [Bool.not_eq_eq_eq_not, Bool.not_true, beq_eq_false_iff_ne]
      exact fun he => hmem (he ▸ ht)
  | succ n ih =>
    intro l hl
    rw [repeatStep]
    have hcount : ((l.erase f) ++ rep).count f = n := by
      rw [List.count_append, List.count_erase_self, hl,
        List.count_eq_zero.mpr hf]
      omega
    have hrepself : rep.filter (fun t => !(t == f)) = rep := by
      apply List.filter_eq_self.mpr
      intro t ht
      simp only [Bool.not_eq_eq_eq_not, Bool.not_true, beq_eq_false_iff_ne]
      exact fun he => hf (he ▸ ht)
    rw [ih _ hcount, List.filter_append, erase_filter_ne, hrepself,
      List.replicate_succ, List.flatten_cons, List.append_assoc]

lemma find?_self_of_nodup {β : Type} (full : List (String × β)) (row : String × β)
    (h : row ∈ full) (hnd : (full.map Prod.fst).Nodup) :
    full.find? (fun r => r.1 == row.1) = some row := by
  induction full with
  | nil => cases h
  | cons hd tl ih =>
    rw [List.map_cons, List.nodup_cons] at hnd
    rcases List.mem_cons.mp h with rfl | htl
    · simp [List.find?]
    · rw [List.find?]
      have hne : (hd.1 == row.1) = false := by
        rw [beq_eq_false_iff_ne]
        intro he
        exact hnd.1 (he ▸ List.mem_map_of_mem Prod.fst htl)
      rw [hne]
      exact ih htl hnd.2

lemma mem_replicate_flatten {t : String} {n : ℕ} {xs : List String}
    (h : t ∈ (List.replicate n xs).flatten) : t ∈ xs := by
  obtain ⟨l, hl, ht⟩ := List.mem_flatten.mp h
  exact (List.eq_of_mem_replicate hl) ▸ ht

/-- Closed form of the resolver loop for non-cascading lookup tables with
pairwise-distinct find codes: the suffix `rows` of `full` still to be
processed removes its find codes and appends each one's replacements, one
copy per occurrence, in row order. -/
lemma farGo_closed (full : List (String × Replace))
    (hnd : (full.map Prod.fst).Nodup)
    (hnc : ∀ row ∈ full, ∀ t ∈ row.2.toList, t ∉ full.map Prod.fst) :
    ∀ (rows : List (String × Replace)), rows.Sublist full → ∀ l : List String,
      farGo full rows l =
        l.filter (fun t => !((rows.map Prod.fst).contains t)) ++
          (rows.map
            (fun row => (List.replicate (l.count row.1) row.2.toList).flatten)).flatten := by
  intro rows
  induction rows with
  | nil =>
    intro _ l
    simp [farGo]
  | cons row rest ih =>
    intro hsub l
    have hrowfull : row ∈ full := hsub.subset (List.mem_cons_self row rest)
    have hrestsub : rest.Sublist full := (List.sublist_cons_self row rest).trans hsub
    have hkeysnd : ((row :: rest).map Prod.fst).Nodup :=
      (hsub.map Prod.fst).nodup hnd
    have hfind : full.find? (fun r => r.1 == row.1) = some row :=
      find?_self_of_nodup full row hrowfull hnd
    have hfrep : row.1 ∉ row.2.toList := fun hmem =>
      hnc row hrowfull row.1 hmem (List.mem_map_of_mem Prod.fst hrowfull)
    have hstep :
        farGo full (row :: rest) l =
          farGo full rest
            (l.filter (fun t => !(t == row.1)) ++
              (List.replicate (l.count row.1) row.2.toList).flatten) := by
      by_cases hmem : row.1 ∈ l
      · simp only [farGo, if_pos hmem, hfind]
        rw [repeatStep_closed row.1 row.2.toList hfrep (l.count row.1) l rfl]
      · rw [farGo, if_neg hmem]
        have h0 : l.count row.1 = 0 := List.count_eq_zero.mpr hmem
        rw [h0, List.filter_eq_self.mpr ?_]
        · simp
        · intro t ht
          simp only [Bool.not_eq_eq_eq_not, Bool.not_true, beq_eq_false_iff_ne]
          exact fun he => hmem (he ▸ ht)
    rw [hstep, ih hrestsub _]
    have hrepfilter :
        ((List.replicate (l.count row.1) row.2.toList).flatten).filter
            (fun t => !((rest.map Prod.fst).contains t)) =
          (List.replicate (l.count row.1) row.2.toList).flatten := by
      apply List.filter_eq_self.mpr
      intro t ht
      have htr : t ∈ row.2.toList := mem_replicate_flatten ht
      have : t ∉ full.map Prod.fst := hnc row hrowfull t htr
      simp only [Bool.not_eq_eq_eq_not, Bool.not_true, List.contains,
        List.elem_eq_mem, decide_eq_false_iff_not]
      exact fun hm => this ((hrestsub.map Prod.fst).subset hm)
    have hcounts : ∀ r2 ∈ rest,
        (l.filter (fun t => !(t == row.1)) ++
          (List.replicate (l.count row.1) row.2.toList).flatten).count r2.1 =
          l.count r2.1 := by
      intro r2 hr2
      rw [List.count_append]
      have hne : r2.1 ≠ row.1 := by
        rw [List.map_cons, List.nodup_cons] at hkeysnd
        exact fun he => hkeysnd.1 (he ▸ List.mem_map_of_mem Prod.fst hr2)
      have h1 : (l.filter (fun t => !(t == row.1))).count r2.1 = l.count r2.1 := by
        rw [List.count_filter]
        simp [hne]
      have h2 :
          ((List.replicate (l.count row.1) row.2.toList).flatten).count r2.1 = 0 := by
        apply List.count_eq_zero.mpr
        intro hmem
        have htr := mem_replicate_flatten hmem
        exact hnc row hrowfull r2.1 htr
          (List.mem_map_of_mem Prod.fst (hrestsub.subset hr2))
      rw [h1, h2]
      omega
    rw [List.filter_append, hrepfilter, List.filter_filter]
    have hpred :
        l.filter (fun a => !((rest.map Prod.fst).contains a) && !(a == row.1)) =
          l.filter (fun t => !((((row :: rest)).map Prod.fst).contains t)) := by
      apply List.filter_congr
      intro a _
      by_cases h1 : a = row.1 <;> by_cases h2 : a ∈ rest.map Prod.fst <;>
        simp [h1, h2, List.contains, List.elem_eq_mem]
    have hmapcong :
        rest.map (fun r2 =>
            (List.replicate
              ((l.filter (fun t => !(t == row.1)) ++
                (List.replicate (l.count row.1) row.2.toList).flatten).count r2.1)
              r2.2.toList).flatten) =
          rest.map (fun r2 => (List.replicate (l.count r2.1) r2.2.toList).flatten) := by
      apply List.map_congr_left
      intro r2 hr2
      rw [hcounts r2 hr2]
    rw [hmapcong, hpred]
    simp only [List.map_cons, List.flatten_cons, List.append_assoc]

lemma mem_repeatStep (f : String) (rep : List String) :
    ∀ (n : ℕ) (l : List String) (t : String),
      t ∈ repeatStep f rep n l → t ∈ l ∨ t ∈ rep := by
  intro n
  induction n with
  | zero => intro l t ht; exact Or.inl ht
  | succ n ih =>
    intro l t ht
    rcases ih _ t ht with h | h
    · rcases List.mem_append.mp h with h2 | h2
      · exact Or.inl (List.mem_of_mem_erase h2)
      · exact Or.inr h2
    · exact Or.inr h

/-- Processing never introduces a token `g` that is absent from the input
list and from every replacement value. -/
lemma farGo_not_mem (full : List (String × Replace)) (g : String)
    (hg : ∀ row ∈ full, g ∉ row.2.toList) :
    ∀ (rows : List (String × Replace)) (l : List String),
      g ∉ l → g ∉ farGo full rows l := by
  intro rows
  induction rows with
  | nil => intro l hl; exact hl
  | cons row rest ih =>
    intro l hl
    rw [farGo]
    by_cases hmem : row.1 ∈ l
    · rw [if_pos hmem]
      cases hfind : full.find? (fun r => r.1 == row.1) with
      | none => exact ih l hl
      | some r =>
        apply ih
        intro hgm
        rcases mem_repeatStep row.1 r.2.toList (l.count row.1) l g hgm with h | h
        · exact hl h
        · exact hg r (List.mem_of_find?_eq_some hfind) h
    · rw [if_neg hmem]
      exact ih l hl

/-- After one full pass over a non-cascading lookup table, no find code
remains in the list. -/
lemma farGo_clears (full : List (String × Replace))
    (hnc : ∀ row ∈ full, ∀ t ∈ row.2.toList, t ∉ full.map Prod.fst) :
    ∀ (rows : List (String × Replace)), (∀ row ∈ rows, row ∈ full) →
      ∀ (l : List String) (g : String), g ∈ rows.map Prod.fst →
        g ∉ farGo full rows l := by
  intro rows
  induction rows with
  | nil => intro _ l g hg; cases hg
  | cons row rest ih =>
    intro hrf l g hg
    have hrowfull : row ∈ full := hrf row (List.mem_cons_self row rest)
    have hrestf : ∀ r ∈ rest, r ∈ full := fun r hr => hrf r (List.mem_cons_of_mem row hr)
    have hgfull : g ∈ (row :: rest).map Prod.fst → g ∈ full.map Prod.fst := by
      intro hm
      rcases List.mem_map.mp hm with ⟨r, hr, rfl⟩
      exact List.mem_map_of_mem Prod.fst (hrf r hr)
    have hgnotrep : ∀ r ∈ full, g ∉ r.2.toList := fun r hr hmem =>
      hnc r hr g hmem (hgfull hg)
    rw [List.map_cons] at hg
    rw [farGo]
    by_cases hmem : row.1 ∈ l
    · rw [if_pos hmem]
      cases hfind : full.find? (fun r => r.1 == row.1) with
      | none =>
        have := List.find?_eq_none.mp hfind row hrowfull
        simp at this
      | some r =>
        rcases List.mem_cons.mp hg with rfl | hgrest
        · apply farGo_not_mem full row.1 hgnotrep
          have hfr : row.1 ∉ r.2.toList :=
            hgnotrep r (List.mem_of_find?_eq_some hfind)
          rw [repeatStep_closed row.1 r.2.toList hfr (l.count row.1) l rfl]
          intro hmem2
          rcases List.mem_append.mp hmem2 with h | h
          · have := (List.mem_filter.mp h).2
            simp at this
          · exact hfr (mem_replicate_flatten h)
        · exact ih hrestf _ g hgrest
    · rw [if_neg hmem]
      rcases List.mem_cons.mp hg with rfl | hgrest
      · exact farGo_not_mem full row.1 hgnotrep rest l hmem
      · exact ih hrestf l g hgrest

/-- A pass over rows whose find codes are all absent from the list is the
identity. -/
lemma farGo_id_of_no_finds (full : List (String × Replace)) :
    ∀ (rows : List (String × Replace)) (l : List String),
      (∀ row ∈ rows, row.1 ∉ l) → farGo full rows l = l := by
  intro rows
  induction rows with
  | nil => intro l _; rfl
  | cons row rest ih =>
    intro l hl
    rw [farGo, if_neg (hl row (List.mem_cons_self row rest))]
    exact ih l (fun r hr => hl r (List.mem_cons_of_mem row hr))

lemma pdMode_isSome (l : List ℤ) (h : l ≠ []) : ∃ m, pdMode l = some m := by
  obtain ⟨x, hx⟩ : ∃ x, l.argmax (fun v => l.count v) = some x := by
    cases hm : l.argmax (fun v => l.count v) with
    | none => exact absurd (List.argmax_eq_none.mp hm) h
    | some m => exact ⟨m, rfl⟩
  have hxf : x ∈ l.filter (fun v => l.all (fun y => l.count y ≤ l.count v)) := by
    apply List.mem_filter.mpr
    refine ⟨List.argmax_mem hx, ?_⟩
    rw [List.all_eq_true]
    intro y hy
    simpa using List.le_of_mem_argmax hy hx
  rw [pdMode]
  cases hf : l.filter (fun v => l.all (fun y => l.count y ≤ l.count v)) with
  | nil => rw [hf] at hxf; cases hxf
  | cons a t => exact ⟨_, List.min?_cons⟩

/-! ## Lemmas about site-reference synthesis -/

lemma foldl_max_le_init : ∀ (as : List ℤ) (b : ℤ), b ≤ as.foldl max b
  | [], _ => le_refl _
  | a :: as, b => le_trans (le_max_left b a) (foldl_max_le_init as (max b a))

lemma foldl_max_le_mem : ∀ (as : List ℤ) (b v : ℤ), v ∈ as → v ≤ as.foldl max b
  | a :: as, b, v, h => by
    rcases List.mem_cons.mp h with rfl | h2
    · exact le_trans (le_max_right b v) (foldl_max_le_init as (max b v))
    · exact foldl_max_le_mem as (max b a) v h2

lemma le_max?_of_mem (l : List ℤ) (v m : ℤ) (h : v ∈ l) (hm : l.max? = some m) :
    v ≤ m := by
  cases l with
  | nil => cases h
  | cons a as =>
    have hm2 : as.foldl max a = m := by
      simpa [List.max?] using hm
    rcases List.mem_cons.mp h with rfl | h2
    · exact hm2 ▸ foldl_max_le_init as v
    · exact hm2 ▸ foldl_max_le_mem as a v h2

lemma countMissing_cons (r : RefRow) (rest : List RefRow) :
    countMissing (r :: rest) =
      if r.missing_site_ref then countMissing rest + 1 else countMissing rest := by
  by_cases h : r.missing_site_ref <;> simp [countMissing, List.filter_cons, h]

lemma assignIds_snd : ∀ (rows : List RefRow) (m : ℤ),
    (assignIds rows m).2 = m + countMissing rows
  | [], m => by simp [assignIds, countMissing]
  | r :: rest, m => by
    rw [countMissing_cons]
    by_cases h : r.missing_site_ref
    · simp [assignIds, h, assignIds_snd rest (m + 1)]
      omega
    · simp [assignIds, h, assignIds_snd rest m]

lemma assignIds_valid : ∀ (rows : List RefRow) (m : ℤ),
    (assignIds rows m).1.filter (fun r => !r.missing_site_ref) =
      rows.filter (fun r => !r.missing_site_ref)
  | [], m => rfl
  | r :: rest, m => by
    by_cases h : r.missing_site_ref
    · simp [assignIds, h, List.filter_cons, assignIds_valid rest (m + 1)]
    · simp [assignIds, h, List.filter_cons, assignIds_valid rest m]

lemma assignIds_synth : ∀ (rows : List RefRow) (m : ℤ),
    ((assignIds rows m).1.filter (fun r => r.missing_site_ref)).map
        (fun r => r.site_reference_id) =
      intRange m (countMissing rows)
  | [], m => by simp [assignIds, countMissing, intRange]
  | r :: rest, m => by
    rw [countMissing_cons]
    by_cases h : r.missing_site_ref
    · simp [assignIds, h, List.filter_cons, assignIds_synth rest (m + 1), intRange]
    · simp [assignIds, h, List.filter_cons, assignIds_synth rest m]

lemma intRange_append (a : ℤ) (p q : ℕ) :
    intRange a (p + q) = intRange a p ++ intRange (a + p) q := by
  induction p generalizing a with
  | zero => simp [intRange]
  | succ p ih =>
    rw [show p + 1 + q = (p + q) + 1 by omega]
    rw [show intRange a ((p + q) + 1) = (a + 1) :: intRange (a + 1) (p + q) from rfl]
    rw [show intRange a (p + 1) = (a + 1) :: intRange (a + 1) p from rfl]
    rw [ih (a + 1), List.cons_append]
    have hc : a + ((p : ℤ) + 1) = a + 1 + p := by ring
    push_cast
    rw [hc]

lemma mem_intRange : ∀ (n : ℕ) (a x : ℤ), x ∈ intRange a n → a < x ∧ x ≤ a + n
  | 0, a, x, h => by cases h
  | n + 1, a, x, h => by
    rcases List.mem_cons.mp h with rfl | h2
    · constructor <;> omega
    · have := mem_intRange n (a + 1) x h2
      constructor <;> omega

lemma intRange_nodup : ∀ (n : ℕ) (a : ℤ), (intRange a n).Nodup
  | 0, a => List.nodup_nil
  | n + 1, a => by
    rw [show intRange a (n + 1) = (a + 1) :: intRange (a + 1) n from rfl,
      List.nodup_cons]
    refine ⟨?_, intRange_nodup n (a + 1)⟩
    intro hmem
    have := mem_intRange n (a + 1) (a + 1) hmem
    omega

lemma validSiteIds_cons (kv : String × List RefRow)
    (rest : List (String × List RefRow)) :
    validSiteIds (kv :: rest) =
      (kv.2.filter (fun r => !r.missing_site_ref)).map
        (fun r => r.site_reference_id) ++ validSiteIds rest := rfl

lemma synthSiteIds_cons (kv : String × List RefRow)
    (rest : List (String × List RefRow)) :
    synthSiteIds (kv :: rest) =
      (kv.2.filter (fun r => r.missing_site_ref)).map
        (fun r => r.site_reference_id) ++ synthSiteIds rest := rfl

lemma fixRefGo_valid : ∀ (data : List (String × List RefRow)) (m : ℤ),
    validSiteIds (fixRefGo data m) = validSiteIds data
  | [], _ => rfl
  | kv :: rest, m => by
    rw [fixRefGo, validSiteIds_cons, validSiteIds_cons, assignIds_valid,
      fixRefGo_valid rest _]

lemma fixRefGo_synth : ∀ (data : List (String × List RefRow)) (m : ℤ),
    synthSiteIds (fixRefGo data m) = intRange m (countMissingAll data)
  | [], _ => by simp [fixRefGo, synthSiteIds, countMissingAll, intRange]
  | kv :: rest, m => by
    rw [fixRefGo, synthSiteIds_cons, assignIds_synth,
      fixRefGo_synth rest _, assignIds_snd,
      show countMissingAll (kv :: rest) = countMissing kv.2 + countMissingAll rest
        from by simp [countMissingAll],
      intRange_append]

lemma overallMaxGo_ge_acc : ∀ (data : List (String × List RefRow)) (acc : ℤ),
    acc ≤ overallMaxGo data acc
  | [], _ => le_refl _
  | kv :: rest, acc => by
    rw [overallMaxGo]
    cases hmv : maxValidId kv.2 with
    | none => exact overallMaxGo_ge_acc rest acc
    | some m =>
      by_cases hgt : m > acc
      · simp only [if_pos hgt]
        exact le_trans (le_of_lt hgt) (overallMaxGo_ge_acc rest m)
      · simp only [if_neg hgt]
        exact overallMaxGo_ge_acc rest acc

lemma overallMaxGo_ge_mem : ∀ (data : List (String × List RefRow)) (acc v : ℤ),
    v ∈ validSiteIds data → v ≤ overallMaxGo data acc
  | [], _, v, h => by cases h
  | kv :: rest, acc, v, h => by
    rw [validSiteIds_cons] at h
    rw [overallMaxGo]
    rcases List.mem_append.mp h with hhd | htl
    · have hvm : ∃ m, maxValidId kv.2 = some m ∧ v ≤ m := by
        cases hmv : maxValidId kv.2 with
        | none =>
          rw [maxValidId, List.max?_eq_none_iff] at hmv
          rw [hmv] at hhd
          cases hhd
        | some m => exact ⟨m, rfl, le_max?_of_mem _ v m hhd hmv⟩
      obtain ⟨m, hmv, hvm⟩ := hvm
      rw [hmv]
      by_cases hgt : m > acc
      · simp only [if_pos hgt]
        exact le_trans hvm (overallMaxGo_ge_acc rest m)
      · simp only [if_neg hgt]
        exact le_trans (le_trans hvm (le_of_not_lt hgt))
          (overallMaxGo_ge_acc rest acc)
    · cases maxValidId kv.2 with
      | none => exact overallMaxGo_ge_mem rest acc v htl
      | some m => exact overallMaxGo_ge_mem rest _ v htl

lemma perm_middle_swap (a b c d : List ℤ) :
    List.Perm ((a ++ b) ++ (c ++ d)) ((a ++ c) ++ (b ++ d)) := by
  have h1 : List.Perm (b ++ (c ++ d)) (c ++ (b ++ d)) := by
    have hb : List.Perm ((b ++ c) ++ d) ((c ++ b) ++ d) :=
      (List.perm_append_comm).append_right d
    simpa only [List.append_assoc] using hb
  simp only [List.append_assoc]
  exact h1.append_left a

lemma ids_perm : ∀ (data : List (String × List RefRow)),
    List.Perm (allSiteIds data) (validSiteIds data ++ synthSiteIds data)
  | [] => List.Perm.refl _
  | kv :: rest => by
    have hhead :
        List.Perm (kv.2.map (fun r => r.site_reference_id))
          ((kv.2.filter (fun r => !r.missing_site_ref)).map
              (fun r => r.site_reference_id) ++
            (kv.2.filter (fun r => r.missing_site_ref)).map
              (fun r => r.site_reference_id)) := by
      have hperm := (List.filter_append_perm
        (fun r => !r.missing_site_ref) kv.2).map (fun r => r.site_reference_id)
      rw [List.map_append] at hperm
      have hfc : kv.2.filter (fun r => !(!r.missing_site_ref)) =
          kv.2.filter (fun r => r.missing_site_ref) := by
        apply List.filter_congr
        intro r _
        simp
      rw [hfc] at hperm
      exact hperm.symm
    have hrest := ids_perm rest
    have hall : allSiteIds (kv :: rest) =
        kv.2.map (fun r => r.site_reference_id) ++ allSiteIds rest := rfl
    rw [hall, validSiteIds_cons, synthSiteIds_cons]
    exact (hhead.append hrest).trans (perm_middle_swap _ _ _ _)

/-! ## Lemmas about user-fix integration -/

lemma infill_user_go_error (modified : String → UFTable) :
    ∀ data : List (String × UFTable),
      (∃ kv ∈ data, (modified kv.1).unedit = kv.2.unedit) →
        infill_user_go modified data = Except.error "ValueError"
  | [], h => by simp at h
  | kv :: rest, h => by
    rw [infill_user_go]
    by_cases hhd : kv.2.unedit ≠ (modified kv.1).unedit
    · rw [if_pos hhd]
      have hrest : ∃ kv2 ∈ rest, (modified kv2.1).unedit = kv2.2.unedit := by
        rcases h with ⟨kv2, hkv2, heq⟩
        rcases List.mem_cons.mp hkv2 with rfl | h2
        · exact absurd heq.symm hhd
        · exact ⟨kv2, h2, heq⟩
      rw [infill_user_go_error modified rest hrest]
    · rw [if_neg hhd]

lemma infill_user_go_ok (modified : String → UFTable) :
    ∀ data : List (String × UFTable),
      (∀ kv ∈ data, (modified kv.1).unedit ≠ kv.2.unedit) →
        infill_user_go modified data =
          Except.ok (data.map (fun kv => (kv.1, updateTable kv.2 (modified kv.1))))
  | [], _ => rfl
  | kv :: rest, h => by
    rw [infill_user_go,
      if_pos (Ne.symm (h kv (List.mem_cons_self kv rest))),
      infill_user_go_ok modified rest
        (fun kv2 h2 => h kv2 (List.mem_cons_of_mem kv h2)),
      List.map_cons]

/-! ## Lemmas about the build-out distributions -/

lemma two_to_pow_intCast (z : ℤ) : two_to_pow (z : ℚ) = (2 : ℚ) ^ z := by
  rw [two_to_pow, if_pos (Rat.den_intCast z), Rat.num_intCast]

lemma two_to_pow_natCast (m : ℕ) : two_to_pow (m : ℚ) = (2 : ℚ) ^ m := by
  have h := two_to_pow_intCast (m : ℤ)
  rw [show (((m : ℤ) : ℚ)) = (m : ℚ) by push_cast; rfl, zpow_natCast] at h
  exact h

lemma sum_two_pow (n : ℕ) : ∑ k in Finset.range n, (2 : ℚ) ^ k = 2 ^ n - 1 := by
  induction n with
  | zero => simp
  | succ n ih =>
    rw [Finset.sum_range_succ, ih]
    ring

lemma two_pow_sub_one_ne_zero (n : ℕ) (hn : 1 ≤ n) : (2 : ℚ) ^ n - 1 ≠ 0 := by
  have h : (1 : ℚ) < 2 ^ n := one_lt_pow₀ (by norm_num) (by omega)
  exact sub_ne_zero.mpr (ne_of_gt h)

lemma buildout_within (s : ℚ) (n k : ℕ) (hk : k < n) :
    s ≤ s + 5 * (k : ℚ) ∧ s + 5 * (k : ℚ) ≤ s + 5 * (n : ℚ) - 1 := by
  have hk0 : (0 : ℚ) ≤ (k : ℚ) := Nat.cast_nonneg k
  have hkn : (k : ℚ) + 1 ≤ (n : ℚ) := by exact_mod_cast hk
  constructor <;> linarith

lemma periods_eq (s : ℚ) (n : ℕ) :
    (s + 5 * (n : ℚ) - 1 - s + 1) / 5 = (n : ℚ) := by
  rw [show s + 5 * (n : ℚ) - 1 - s + 1 = 5 * (n : ℚ) by ring,
    mul_div_cancel_left₀ _ (by norm_num : (5 : ℚ) ≠ 0)]

lemma year_frac_eq (s : ℚ) (k : ℕ) : (s + 5 * (k : ℚ) - s) / 5 = (k : ℚ) := by
  rw [show s + 5 * (k : ℚ) - s = 5 * (k : ℚ) by ring,
    mul_div_cancel_left₀ _ (by norm_num : (5 : ℚ) ≠ 0)]

lemma flat_term (u s : ℚ) (n k : ℕ) (hk : k < n) :
    flat_distribution u s (s + 5 * n - 1) (s + 5 * k) 5 = u / n := by
  rw [flat_distribution, if_pos (buildout_within s n k hk), periods_eq]

lemma early_term (u s : ℚ) (n k : ℕ) (hk : k < n) :
    early_distribution u s (s + 5 * n - 1) (s + 5 * k) 5 =
      u * ((2 : ℚ) ^ (n - 1 - k) / (2 ^ n - 1)) := by
  obtain ⟨j, rfl⟩ : ∃ j, n = k + 1 + j := ⟨n - (k + 1), by omega⟩
  rw [early_distribution, if_pos (buildout_within s (k + 1 + j) k hk),
    periods_eq, year_frac_eq,
    show ((k + 1 + j : ℕ) : ℚ) - ((k : ℚ) + 1) = ((j : ℕ) : ℚ) by push_cast; ring,
    two_to_pow_natCast, two_to_pow_natCast,
    show k + 1 + j - 1 - k = j by omega]

lemma late_term (u s : ℚ) (n k : ℕ) (hk : k < n) :
    late_distribution u s (s + 5 * n - 1) (s + 5 * k) 5 =
      u * ((2 : ℚ) ^ k / (2 ^ n - 1)) := by
  obtain ⟨j, rfl⟩ : ∃ j, n = k + 1 + j := ⟨n - (k + 1), by omega⟩
  rw [late_distribution, if_pos (buildout_within s (k + 1 + j) k hk),
    periods_eq,
    show (s + 5 * ((k + 1 + j : ℕ) : ℚ) - 1 - ((s + 5 * (k : ℚ)) + ((5 : ℚ) - 1))) / 5 =
      ((j : ℕ) : ℚ) by push_cast; field_simp; ring,
    show ((k + 1 + j : ℕ) : ℚ) - (((j : ℕ) : ℚ) + 1) = ((k : ℕ) : ℚ) by push_cast; ring,
    two_to_pow_natCast, two_to_pow_natCast]

lemma floor_half_natCast (m : ℕ) : ⌊((m : ℚ)) / 2⌋ = ((m / 2 : ℕ) : ℤ) := by
  refine Int.floor_eq_iff.mpr ⟨?_, ?_⟩
  · rw [le_div_iff₀ (by norm_num : (0 : ℚ) < 2)]
    exact_mod_cast Nat.div_mul_le_self m 2
  · rw [div_lt_iff₀ (by norm_num : (0 : ℚ) < 2)]
    have h : m < (m / 2 + 1) * 2 := by omega
    push_cast
    exact_mod_cast h

lemma midDenom_eq (n : ℕ) :
    (two_to_pow ((⌊((n : ℚ) + 1) / 2⌋ : ℤ) : ℚ) - 1) +
      (two_to_pow ((⌊((n : ℚ)) / 2⌋ : ℤ) : ℚ) - 1) = midDenom n := by
  rw [show ((n : ℚ) + 1) = (((n + 1 : ℕ)) : ℚ) by push_cast; ring,
    floor_half_natCast, floor_half_natCast, two_to_pow_intCast,
    two_to_pow_intCast, zpow_natCast, zpow_natCast, midDenom]

lemma midDenom_pos (n : ℕ) (hn : 1 ≤ n) : 0 < midDenom n := by
  rw [midDenom]
  have h1 : (1 : ℚ) < 2 ^ ((n + 1) / 2) := one_lt_pow₀ (by norm_num) (by omega)
  have h2 : (1 : ℚ) ≤ 2 ^ (n / 2) := one_le_pow₀ (by norm_num)
  linarith

lemma mid_term_le (u s : ℚ) (n k : ℕ) (h2 : 2 * k + 1 ≤ n) :
    mid_distribution u s (s + 5 * n - 1) (s + 5 * k) 5 =
      u * (2 : ℚ) ^ k / midDenom n := by
  have hk : k < n := by omega
  have hcond : 1 + (s + 5 * (k : ℚ) - s) / 5 ≤
      ((s + 5 * (n : ℚ) - 1 - s + 1) / 5 + 1) / 2 := by
    rw [year_frac_eq, periods_eq, le_div_iff₀ (by norm_num : (0 : ℚ) < 2)]
    have : (2 : ℚ) * k + 1 ≤ (n : ℚ) := by exact_mod_cast h2
    linarith
  rw [mid_distribution, if_pos (buildout_within s n k hk), if_pos hcond,
    periods_eq, year_frac_eq, two_to_pow_natCast, midDenom_eq]

lemma mid_term_gt (u s : ℚ) (n k : ℕ) (hk : k < n) (h2 : n < 2 * k + 1) :
    mid_distribution u s (s + 5 * n - 1) (s + 5 * k) 5 =
      u * (2 : ℚ) ^ (n - 1 - k) / midDenom n := by
  have hcond : ¬ (1 + (s + 5 * (k : ℚ) - s) / 5 ≤
      ((s + 5 * (n : ℚ) - 1 - s + 1) / 5 + 1) / 2) := by
    rw [year_frac_eq, periods_eq, le_div_iff₀ (by norm_num : (0 : ℚ) < 2)]
    have : (n : ℚ) < 2 * k + 1 := by exact_mod_cast h2
    push_neg
    linarith
  obtain ⟨j, rfl⟩ : ∃ j, n = k + 1 + j := ⟨n - (k + 1), by omega⟩
  rw [mid_distribution, if_pos (buildout_within s (k + 1 + j) k hk),
    if_neg hcond, periods_eq, year_frac_eq,
    show ((k + 1 + j : ℕ) : ℚ) - ((k : ℚ) + 1) = ((j : ℕ) : ℚ) by push_cast; ring,
    two_to_pow_natCast, midDenom_eq,
    show k + 1 + j - 1 - k = j by omega]

/-- C3: `find_missing_values` flags, per column, exactly the rows whose
cell is null/NaN or pandas-equal to a not-allowed value, and every call
over two or more columns equals the set-union (concatenation) of the
corresponding single-column calls, de-duplicated on the identity key
(`site_reference_id`, `site_name`) and sorted by `site_reference_id`. -/
theorem C3_find_missing_values_union (tbl : List MVRow) (cols : List String)
    (na : List MVCell) (h2 : 2 ≤ cols.length) :
    find_missing_values tbl cols na =
      sortBySiteRef (dedupByKey
        ((cols.map (fun c => find_missing_values tbl [c] na)).flatten)) ∧
    ∀ r : MVRow,
      r ∈ (cols.map (fun c => find_missing_values tbl [c] na)).flatten ↔
        r ∈ tbl ∧ ∃ c ∈ cols, rowQualifies r c na = true := by
  have single : ∀ c, find_missing_values tbl [c] na
      = tbl.filter (fun r => rowQualifies r c na) := fun c => rfl
  constructor
  · match cols, h2 with
    | c1 :: c2 :: rest, _ =>
      simp only [single]
      rfl
  · intro r
    simp only [single, List.mem_flatten, List.mem_map]
    constructor
    · rintro ⟨l, ⟨c, hc, rfl⟩, hr⟩
      have hm := List.mem_filter.mp hr
      exact ⟨hm.1, c, hc, hm.2⟩
    · rintro ⟨hrt, c, hc, hq⟩
      exact ⟨_, ⟨c, hc, rfl⟩, List.mem_filter.mpr ⟨hrt, hq⟩⟩

/-- Witness for C3 on the two-column sample table. -/
theorem C3_find_missing_values_union_witness :
    2 ≤ (["col_a", "col_b"] : List String).length ∧
    (find_missing_values mvSampleTable ["col_a", "col_b"] [MVCell.int 5] =
      sortBySiteRef (dedupByKey
        ((["col_a", "col_b"].map
          (fun c => find_missing_values mvSampleTable [c] [MVCell.int 5])).flatten)) ∧
    ∀ r : MVRow,
      r ∈ (["col_a", "col_b"].map
        (fun c => find_missing_values mvSampleTable [c] [MVCell.int 5])).flatten ↔
        r ∈ mvSampleTable ∧
          ∃ c ∈ ["col_a", "col_b"], rowQualifies r c [MVCell.int 5] = true) :=
  ⟨by decide,
   C3_find_missing_values_union mvSampleTable ["col_a", "col_b"] [MVCell.int 5]
     (by decide)⟩

/-- C4: For every annotated table passed to `classify_data`, each row is in
the category's `invalid` output iff at least one of its filter columns is
true, in the `valid` output iff all are false, and every row lands in
exactly one of the two: `valid` and `invalid` partition each category. -/
theorem C4_classify_partition (rr : ResultsReport)
    (afc irc nfc : List String) (k : String) (rows : List ClassRow)
    (hk : (k, rows) ∈ rr.data_filter) :
    (k, rows.filter (fun r => anyFlag r rr.filter_columns)) ∈
      (classify_data rr afc irc nfc).invalid ∧
    (k, rows.filter (fun r => !anyFlag r rr.filter_columns)) ∈
      (classify_data rr afc irc nfc).valid ∧
    ∀ r ∈ rows,
      (r ∈ rows.filter (fun r => anyFlag r rr.filter_columns) ↔
        anyFlag r rr.filter_columns = true) ∧
      (r ∈ rows.filter (fun r => !anyFlag r rr.filter_columns) ↔
        anyFlag r rr.filter_columns = false) ∧
      ¬(r ∈ rows.filter (fun r => anyFlag r rr.filter_columns) ∧
        r ∈ rows.filter (fun r => !anyFlag r rr.filter_columns)) := by
  refine ⟨?_, ?_, ?_⟩
  · exact List.mem_map.mpr ⟨(k, rows), hk, rfl⟩
  · exact List.mem_map.mpr ⟨(k, rows), hk, rfl⟩
  · intro r hr
    constructor
    · simp [List.mem_filter, hr]
    constructor
    · simp [List.mem_filter, hr]
    · intro ⟨h1, h2⟩
      have b1 := (List.mem_filter.mp h1).2
      have b2 := (List.mem_filter.mp h2).2
      simp at b2
      simp [b2] at b1

/-- Witness for C4 at a concrete report: one category with one flagged and
one clean row. -/
theorem C4_classify_partition_witness :
    ((("residential",
        [⟨1, [("missing_site_ref", true)]⟩, ⟨2, [("missing_site_ref", false)]⟩]) ∈
      (ResultsReport.mk
        [("residential",
          [⟨1, [("missing_site_ref", true)]⟩, ⟨2, [("missing_site_ref", false)]⟩])]
        ["missing_site_ref"]).data_filter) ∧ True) ∧
    (("residential",
        ([⟨1, [("missing_site_ref", true)]⟩,
          ⟨2, [("missing_site_ref", false)]⟩] : List ClassRow).filter
          (fun r => anyFlag r ["missing_site_ref"])) ∈
      (classify_data
        (ResultsReport.mk
          [("residential",
            [⟨1, [("missing_site_ref", true)]⟩, ⟨2, [("missing_site_ref", false)]⟩])]
          ["missing_site_ref"]) [] [] []).invalid) := by
  constructor
  · exact ⟨by decide, trivial⟩
  · exact (C4_classify_partition
      (ResultsReport.mk
        [("residential",
          [⟨1, [("missing_site_ref", true)]⟩, ⟨2, [("missing_site_ref", false)]⟩])]
        ["missing_site_ref"]) [] [] [] "residential"
      [⟨1, [("missing_site_ref", true)]⟩, ⟨2, [("missing_site_ref", false)]⟩]
      (by decide)).1

/-- C6 counterexample: with a cascading lookup table (a replacement value
that is itself a find code) an occurrence is NOT replaced by its own
mapped value: `["a"]` under `a → b, b → c` yields `["c"]`, not the
claim-predicted `["b"]`. -/
theorem C6_counterexample :
    find_and_replace_luc (LucCell.lst ["a"])
        [("a", Replace.rstr "b"), ("b", Replace.rstr "c")] none = LucCell.lst ["c"] ∧
    lucSpecReplace [("a", Replace.rstr "b"), ("b", Replace.rstr "c")] ["a"] = ["b"] ∧
    LucCell.lst ["c"] ≠ LucCell.lst ["b"] := by decide

/-- C6 (amended): for every code list and every lookup table whose find
codes are pairwise distinct and whose replacement values contain no find
code, `find_and_replace_luc` replaces each occurrence of a matched token
independently (one replacement copy per occurrence, list values
expanding), while unmatched tokens pass through unchanged in their
original relative order — the spec-predicted output `lucSpecReplace`. -/
theorem C6_luc_replacement (lookup : List (String × Replace)) (l : List String)
    (hnd : (lookup.map Prod.fst).Nodup)
    (hnc : ∀ row ∈ lookup, ∀ t ∈ row.2.toList, t ∉ lookup.map Prod.fst) :
    find_and_replace_luc (LucCell.lst l) lookup none =
      LucCell.lst (lucSpecReplace lookup l) := by
  by_cases hl : l.length = 0
  · have hnil : l = [] := List.length_eq_zero.mp hl
    subst hnil
    simp [find_and_replace_luc, lucSpecReplace, List.flatten_eq_nil_iff]
  · simp only [find_and_replace_luc, if_neg hl]
    exact congrArg LucCell.lst
      (farGo_closed lookup hnd hnc lookup (List.Sublist.refl lookup) l)

/-- Witness for C6 (amended) at the spec's concrete scenario:
`["b1a", "b1a"]` with `b1a → B1(a)` gives `["B1(a)", "B1(a)"]`. -/
theorem C6_luc_replacement_witness :
    (([("b1a", Replace.rstr "B1(a)")].map Prod.fst).Nodup) ∧
    (∀ row ∈ [("b1a", Replace.rstr "B1(a)")], ∀ t ∈ row.2.toList,
      t ∉ [("b1a", Replace.rstr "B1(a)")].map Prod.fst) ∧
    (find_and_replace_luc (LucCell.lst ["b1a", "b1a"])
        [("b1a", Replace.rstr "B1(a)")] none =
      LucCell.lst (lucSpecReplace [("b1a", Replace.rstr "B1(a)")] ["b1a", "b1a"])) ∧
    lucSpecReplace [("b1a", Replace.rstr "B1(a)")] ["b1a", "b1a"] =
      ["B1(a)", "B1(a)"] :=
  ⟨by decide, by decide,
   C6_luc_replacement [("b1a", Replace.rstr "B1(a)")] ["b1a", "b1a"]
     (by decide) (by decide), by decide⟩

/-- C7 counterexample: one pass is not idempotent on a cascading lookup
table: under `b → c, a → b` (row order as listed), one pass sends `["a"]`
to `["b"]` and a second pass sends that to `["c"]`. -/
theorem C7_counterexample :
    find_and_replace_luc (LucCell.lst ["a"])
        [("b", Replace.rstr "c"), ("a", Replace.rstr "b")] none = LucCell.lst ["b"] ∧
    find_and_replace_luc
        (find_and_replace_luc (LucCell.lst ["a"])
          [("b", Replace.rstr "c"), ("a", Replace.rstr "b")] none)
        [("b", Replace.rstr "c"), ("a", Replace.rstr "b")] none ≠
      find_and_replace_luc (LucCell.lst ["a"])
        [("b", Replace.rstr "c"), ("a", Replace.rstr "b")] none := by decide

/-- C7 (amended): applying the same lookup pass a second time is a no-op,
provided no replacement value of the lookup table appears in its find
column (non-cascading tables, which the curated lookup tables are). -/
theorem C7_idempotent (lookup : List (String × Replace)) (l : List String)
    (hnc : ∀ row ∈ lookup, ∀ t ∈ row.2.toList, t ∉ lookup.map Prod.fst) :
    find_and_replace_luc (find_and_replace_luc (LucCell.lst l) lookup none)
        lookup none =
      find_and_replace_luc (LucCell.lst l) lookup none := by
  by_cases hl : l.length = 0
  · have hnil : l = [] := List.length_eq_zero.mp hl
    subst hnil
    simp [find_and_replace_luc]
  · have hcore : find_and_replace_luc (LucCell.lst l) lookup none =
        LucCell.lst (find_and_replace_core lookup l) := by
      simp only [find_and_replace_luc, if_neg hl]
    rw [hcore]
    by_cases h2 : (find_and_replace_core lookup l).length = 0
    · have hnil2 : find_and_replace_core lookup l = [] := List.length_eq_zero.mp h2
      rw [hnil2]
      simp [find_and_replace_luc]
    · simp only [find_and_replace_luc, if_neg h2]
      refine congrArg LucCell.lst (farGo_id_of_no_finds lookup lookup _ ?_)
      intro row hrow hmeml
      exact farGo_clears lookup hnc lookup (fun r hr => hr) l row.1
        (List.mem_map_of_mem Prod.fst hrow) hmeml

/-- Witness for C7 (amended) on a one-row non-cascading table. -/
theorem C7_idempotent_witness :
    (∀ row ∈ [("b1a", Replace.rstr "B1(a)")], ∀ t ∈ row.2.toList,
      t ∉ [("b1a", Replace.rstr "B1(a)")].map Prod.fst) ∧
    find_and_replace_luc
        (find_and_replace_luc (LucCell.lst ["b1a", "x"])
          [("b1a", Replace.rstr "B1(a)")] none)
        [("b1a", Replace.rstr "B1(a)")] none =
      find_and_replace_luc (LucCell.lst ["b1a", "x"])
        [("b1a", Replace.rstr "B1(a)")] none :=
  ⟨by decide,
   C7_idempotent [("b1a", Replace.rstr "B1(a)")] ["b1a", "x"] (by decide)⟩

/-- C8 counterexample: a malformed (NaN) cell is not left unchanged — the
caught `TypeError` path replaces it with the empty list. -/
theorem C8_counterexample :
    find_and_replace_luc LucCell.nan [("a", Replace.rstr "b")] none =
      LucCell.lst [] ∧
    LucCell.lst [] ≠ LucCell.nan := by decide

/-- C8 (amended): `find_and_replace_luc` never raises on degenerate cells:
an empty list with a `fill_empty_value` returns that value wholesale (a
single string becomes a one-element list, a list is used as-is), and a
malformed cell (NaN or a number, where Python `len` raises the caught
`TypeError`) is replaced by the empty list — fail-soft, not an
exception (but not left unchanged, and without a warning). -/
theorem C8_fail_soft (lookup : List (String × Replace)) (fillS : String)
    (fillL : List String) (z : ℤ) (fill : Option FillVal) :
    find_and_replace_luc (LucCell.lst []) lookup (some (FillVal.fstr fillS)) =
      LucCell.lst [fillS] ∧
    find_and_replace_luc (LucCell.lst []) lookup (some (FillVal.flst fillL)) =
      LucCell.lst fillL ∧
    find_and_replace_luc LucCell.nan lookup fill = LucCell.lst [] ∧
    find_and_replace_luc (LucCell.num z) lookup fill = LucCell.lst [] :=
  ⟨rfl, rfl, rfl, rfl⟩

/-- C2 (code bug): `infill_one_missing_year` never applies the modal
period.  For every row missing exactly its end year the repaired end year
equals the known start year (and symmetrically for a missing start),
because the integration step copies the unmodified column of the fixed
frame; concretely, a row with start 3, end unset (14) and modal years
(2, 10) — period 8, and 3 + 8 = 11 is within bounds, so the claim and the
function's own docstring require end = 11 — ends up with end = 3. -/
theorem C2_integration_bug :
    (∀ (period : ℤ) (r : YearRow),
      ycellMissing r.end_year_id = true → ycellMissing r.start_year_id = false →
        (repairYearRow period r).end_year_id = r.start_year_id) ∧
    (∀ (period : ℤ) (r : YearRow),
      ycellMissing r.start_year_id = true → ycellMissing r.end_year_id = false →
        (repairYearRow period r).start_year_id = r.end_year_id) ∧
    infill_one_missing_year [(1, 2, 10)] [⟨1, YCell.int 3, YCell.int 14⟩] =
      [⟨1, YCell.int 3, YCell.int 3⟩] ∧
    ((3 : ℤ) + (10 - 2) < 14 ∧ YCell.int (3 + (10 - 2)) ≠ YCell.int 3) := by
  refine ⟨?_, ?_, by decide, by decide⟩
  · intro period r hE hS
    rw [repairYearRow]
    simp only [hE, hS]
    by_cases hc : ycellVal r.start_year_id + period ≥ 14 <;> simp [hc]
  · intro period r hS hE
    rw [repairYearRow]
    simp only [hE, hS]
    by_cases hc : ycellVal r.end_year_id ≤ period <;> simp [hc]

/-- Witness for C2's universally quantified parts at the failing input. -/
theorem C2_integration_bug_witness :
    (ycellMissing (YCell.int 14) = true ∧ ycellMissing (YCell.int 3) = false) ∧
    (repairYearRow 8 ⟨1, YCell.int 3, YCell.int 14⟩).end_year_id = YCell.int 3 :=
  ⟨⟨by decide, by decide⟩,
   C2_integration_bug.1 8 ⟨1, YCell.int 3, YCell.int 14⟩ (by decide) (by decide)⟩

/-- C9: `calc_average_years_webtag_certainty` never raises on modal
degeneracy: whenever every non-zero WebTAG id in the lookup has at least
one data row (so both modes exist), the function returns a result, and if
the modal end year precedes the modal start year the end is clamped to
the start — every returned `(start, end)` pair satisfies `start ≤ end`. -/
theorem C9_webtag_mode_clamp (data : List (String × List TagRow)) (ids : List ℤ)
    (h : ∀ id ∈ ids, id ≠ 0 → gatherStart data id ≠ [] ∧ gatherEnd data id ≠ []) :
    ∃ res, calc_average_years_webtag_certainty data ids = some res ∧
      (∀ id ∈ ids, id ≠ 0 →
        ∀ ms me, pdMode (gatherStart data id) = some ms →
          pdMode (gatherEnd data id) = some me →
            (id, ms, if ms > me then ms else me) ∈ res) ∧
      ∀ p ∈ res, p.2.1 ≤ p.2.2 := by
  induction ids with
  | nil => exact ⟨[], rfl, by simp, by simp⟩
  | cons id rest ih =>
    obtain ⟨res, hres, hmem, hall⟩ :=
      ih (fun i hi hne => h i (List.mem_cons_of_mem id hi) hne)
    by_cases h0 : id = 0
    · subst h0
      refine ⟨res, ?_, ?_, hall⟩
      · simpa [calc_average_years_webtag_certainty] using hres
      · intro i hi hne ms me hms hme
        rcases List.mem_cons.mp hi with rfl | hi2
        · exact absurd rfl hne
        · exact hmem i hi2 hne ms me hms hme
    · obtain ⟨hs, he⟩ := h id (List.mem_cons_self id rest) h0
      obtain ⟨ms, hms⟩ := pdMode_isSome _ hs
      obtain ⟨me, hme⟩ := pdMode_isSome _ he
      refine ⟨(id, ms, if ms > me then ms else me) :: res, ?_, ?_, ?_⟩
      · simp only [calc_average_years_webtag_certainty, hms, hme, hres]
        simp [h0]
      · intro i hi hne ms2 me2 hms2 hme2
        rcases List.mem_cons.mp hi with rfl | hi2
        · rw [hms2] at hms
          rw [hme2] at hme
          cases hms
          cases hme
          exact List.mem_cons_self _ _
        · exact List.mem_cons_of_mem _ (hmem i hi2 hne ms2 me2 hms2 hme2)
      · intro p hp
        rcases List.mem_cons.mp hp with rfl | hp2
        · by_cases hgt : ms > me
          · simp [hgt]
          · simp only [if_neg hgt]
            simpa using le_of_not_lt hgt
        · exact hall p hp2

/-- Witness for C9 on a degenerate concrete input: WebTAG id 1 has modal
start 5 and modal end 3, and the returned pair is the clamped (5, 5). -/
theorem C9_webtag_mode_clamp_witness :
    (∀ id ∈ ([1] : List ℤ), id ≠ 0 →
      gatherStart [("residential",
        [⟨false, 1, 5, 3⟩, ⟨false, 1, 5, 3⟩])] id ≠ [] ∧
      gatherEnd [("residential",
        [⟨false, 1, 5, 3⟩, ⟨false, 1, 5, 3⟩])] id ≠ []) ∧
    ∃ res, calc_average_years_webtag_certainty
        [("residential", [⟨false, 1, 5, 3⟩, ⟨false, 1, 5, 3⟩])] [1] = some res ∧
      (∀ id ∈ ([1] : List ℤ), id ≠ 0 →
        ∀ ms me, pdMode (gatherStart [("residential",
            [⟨false, 1, 5, 3⟩, ⟨false, 1, 5, 3⟩])] id) = some ms →
          pdMode (gatherEnd [("residential",
            [⟨false, 1, 5, 3⟩, ⟨false, 1, 5, 3⟩])] id) = some me →
            (id, ms, if ms > me then ms else me) ∈ res) ∧
      ∀ p ∈ res, p.2.1 ≤ p.2.2 :=
  ⟨by decide,
   C9_webtag_mode_clamp [("residential", [⟨false, 1, 5, 3⟩, ⟨false, 1, 5, 3⟩])]
     [1] (by decide)⟩

/-- C5 counterexample: two pre-existing valid rows that already share
`site_reference_id = 7` still share it after `fix_site_ref_id` (the
function never de-duplicates pre-existing ids), so "no two rows across all
categories share a site_reference_id" fails unconditionally. -/
theorem C5_counterexample :
    fix_site_ref_id [("residential", [⟨false, 7⟩, ⟨false, 7⟩])] =
      [("residential", [⟨false, 7⟩, ⟨false, 7⟩])] ∧
    ¬ (allSiteIds (fix_site_ref_id
        [("residential", [⟨false, 7⟩, ⟨false, 7⟩])])).Nodup := by decide

/-- C5 (amended): provided the pre-existing valid ids are pairwise
distinct, after `fix_site_ref_id` no two rows across all categories share
a `site_reference_id`; every synthesized id is strictly greater than every
pre-run valid id (hence than the pre-run maximum), and the synthesized ids
are exactly `running_max + 1, + 2, …` carried forward category-by-category
from the overall pre-run maximum. -/
theorem C5_site_ref_unique (data : List (String × List RefRow))
    (hd : (validSiteIds data).Nodup) :
    (allSiteIds (fix_site_ref_id data)).Nodup ∧
    (∀ i ∈ synthSiteIds (fix_site_ref_id data),
      ∀ v ∈ validSiteIds data, v < i) ∧
    synthSiteIds (fix_site_ref_id data) =
      intRange (overallMaxId data) (countMissingAll data) := by
  have hsynth : synthSiteIds (fix_site_ref_id data) =
      intRange (overallMaxId data) (countMissingAll data) :=
    fixRefGo_synth data _
  have hvalid : validSiteIds (fix_site_ref_id data) = validSiteIds data :=
    fixRefGo_valid data _
  have hgt : ∀ i ∈ synthSiteIds (fix_site_ref_id data),
      ∀ v ∈ validSiteIds data, v < i := by
    intro i hi v hv
    rw [hsynth] at hi
    have h1 := mem_intRange _ _ _ hi
    have h2 : v ≤ overallMaxId data := overallMaxGo_ge_mem data 0 v hv
    exact lt_of_le_of_lt h2 h1.1
  refine ⟨?_, hgt, hsynth⟩
  rw [(ids_perm (fix_site_ref_id data)).nodup_iff, List.nodup_append]
  refine ⟨?_, ?_, ?_⟩
  · rw [hvalid]; exact hd
  · rw [hsynth]; exact intRange_nodup _ _
  · intro x hx1 hx2
    rw [hvalid] at hx1
    exact lt_irrefl x (hgt x hx2 x hx1)

/-- Witness for C5 (amended) on the sample data: valid id 7 and two
missing rows, which receive ids 8 and 9 across categories. -/
theorem C5_site_ref_unique_witness :
    (validSiteIds refSample).Nodup ∧
    ((allSiteIds (fix_site_ref_id refSample)).Nodup ∧
     (∀ i ∈ synthSiteIds (fix_site_ref_id refSample),
       ∀ v ∈ validSiteIds refSample, v < i) ∧
     synthSiteIds (fix_site_ref_id refSample) =
       intRange (overallMaxId refSample) (countMissingAll refSample)) :=
  ⟨by decide, C5_site_ref_unique refSample (by decide)⟩

/-- C10: with `uneditable_columns` supplied and the edited file present,
`infill_user_inputs` raises `ValueError` precisely when some category's
uneditable-column values in the user-edited file equal the original's, and
returns the merged tables (the user's non-NA edits overriding a copy of
the original) precisely when every category's uneditable-column values
differ from the original — the source's inverted `equals` branch. -/
theorem C10_infill_user_inputs (data : List (String × UFTable))
    (modified : String → UFTable) :
    (infill_user_inputs true data modified = Except.error "ValueError" ↔
      ∃ kv ∈ data, (modified kv.1).unedit = kv.2.unedit) ∧
    (infill_user_inputs true data modified =
        Except.ok (data.map (fun kv => (kv.1, updateTable kv.2 (modified kv.1)))) ↔
      ∀ kv ∈ data, (modified kv.1).unedit ≠ kv.2.unedit) := by
  have hred : infill_user_inputs true data modified = infill_user_go modified data :=
    rfl
  constructor
  · constructor
    · intro herr
      by_contra hne
      push_neg at hne
      rw [hred, infill_user_go_ok modified data hne] at herr
      exact Except.noConfusion herr
    · intro hex
      rw [hred]
      exact infill_user_go_error modified data hex
  · constructor
    · intro hok
      by_contra hne
      push_neg at hne
      rcases hne with ⟨kv, hkv, heq⟩
      rw [hred, infill_user_go_error modified data ⟨kv, hkv, heq⟩] at hok
      exact Except.noConfusion hok
    · intro hall
      rw [hred]
      exact infill_user_go_ok modified data hall

/-- C1 counterexample: for a window not aligned to the 5-year period
(here the degenerate calendar window `start = end = 0`, which satisfies
`end ≥ start`), the sum of the flat allocations over the period-aligned
query years inside the window (the single year 0) is `5 × total_unit`,
far outside the `1e-6` relative tolerance — `periods = 1/5` and the
single in-window year receives `unit / (1/5)`. -/
theorem C1_counterexample :
    ((0 : ℚ) ≤ (0 : ℚ)) ∧
    (∑ k in Finset.range 1, flat_distribution 1 0 0 (0 + 5 * (k : ℚ)) 5) = 5 ∧
    ¬ |(5 : ℚ) - 1| ≤ 1 / 1000000 * |(1 : ℚ)| := by
  refine ⟨le_refl _, ?_, by norm_num⟩
  rw [Finset.sum_range_one]
  norm_num [flat_distribution]

/-- C1 (amended): for every `total_unit`, every start year and every
window spanning a whole number `n ≥ 1` of 5-year periods
(`end_year = start_year + 5n − 1`), summing each of the four per-year
allocations over the period-aligned query years
`start_year, start_year + 5, …` inside `[start_year, end_year]` gives
exactly `total_unit` (hence within any tolerance), including the
degenerate one-period window `n = 1`.  For windows not aligned to the
period the sums differ from `total_unit` by far more than the stated
tolerance. -/
theorem C1_buildout_conservation (u s : ℚ) (n : ℕ) (hn : 1 ≤ n) :
    (∑ k in Finset.range n,
      flat_distribution u s (s + 5 * n - 1) (s + 5 * k) 5 = u) ∧
    (∑ k in Finset.range n,
      early_distribution u s (s + 5 * n - 1) (s + 5 * k) 5 = u) ∧
    (∑ k in Finset.range n,
      late_distribution u s (s + 5 * n - 1) (s + 5 * k) 5 = u) ∧
    (∑ k in Finset.range n,
      mid_distribution u s (s + 5 * n - 1) (s + 5 * k) 5 = u) := by
  have hn0 : (n : ℚ) ≠ 0 := Nat.cast_ne_zero.mpr (by omega)
  have hgeom := two_pow_sub_one_ne_zero n hn
  refine ⟨?_, ?_, ?_, ?_⟩
  · rw [Finset.sum_congr rfl
      (fun k hk => flat_term u s n k (Finset.mem_range.mp hk)),
      Finset.sum_const, Finset.card_range, nsmul_eq_mul, mul_comm,
      div_mul_cancel₀ u hn0]
  · rw [Finset.sum_congr rfl
      (fun k hk => early_term u s n k (Finset.mem_range.mp hk))]
    have hpull : ∀ k ∈ Finset.range n,
        u * ((2 : ℚ) ^ (n - 1 - k) / (2 ^ n - 1)) =
          u / (2 ^ n - 1) * (2 : ℚ) ^ (n - 1 - k) := fun k _ => by ring
    rw [Finset.sum_congr rfl hpull, ← Finset.mul_sum,
      Finset.sum_range_reflect (fun k => (2 : ℚ) ^ k) n, sum_two_pow,
      div_mul_cancel₀ u hgeom]
  · rw [Finset.sum_congr rfl
      (fun k hk => late_term u s n k (Finset.mem_range.mp hk))]
    have hpull : ∀ k ∈ Finset.range n,
        u * ((2 : ℚ) ^ k / (2 ^ n - 1)) =
          u / (2 ^ n - 1) * (2 : ℚ) ^ k := fun k _ => by ring
    rw [Finset.sum_congr rfl hpull, ← Finset.mul_sum, sum_two_pow,
      div_mul_cancel₀ u hgeom]
  · have hD := midDenom_pos n hn
    rcases Nat.even_or_odd n with ⟨m, hm⟩ | ⟨m, hm⟩
    · -- even window: n = m + m, both halves sum to 2^m − 1
      subst hm
      have hm1 : 1 ≤ m := by omega
      rw [Finset.sum_range_add]
      have hfst : ∀ k ∈ Finset.range m,
          mid_distribution u s (s + 5 * (m + m : ℕ) - 1) (s + 5 * k) 5 =
            u / midDenom (m + m) * (2 : ℚ) ^ k := by
        intro k hk
        have hkm := Finset.mem_range.mp hk
        rw [mid_term_le u s (m + m) k (by omega)]
        ring
      have hsnd : ∀ k ∈ Finset.range m,
          mid_distribution u s (s + 5 * (m + m : ℕ) - 1)
              (s + 5 * ((m + k : ℕ) : ℚ)) 5 =
            u / midDenom (m + m) * (2 : ℚ) ^ (m - 1 - k) := by
        intro k hk
        have hkm := Finset.mem_range.mp hk
        rw [mid_term_gt u s (m + m) (m + k) (by omega) (by omega),
          show m + m - 1 - (m + k) = m - 1 - k by omega]
        ring
      rw [Finset.sum_congr rfl hfst, Finset.sum_congr rfl hsnd,
        ← Finset.mul_sum, ← Finset.mul_sum,
        Finset.sum_range_reflect (fun k => (2 : ℚ) ^ k) m, sum_two_pow]
      have hDval : midDenom (m + m) = ((2 : ℚ) ^ m - 1) + ((2 : ℚ) ^ m - 1) := by
        rw [midDenom, show (m + m + 1) / 2 = m by omega, show (m + m) / 2 = m by omega]
      rw [hDval] at hD ⊢
      field_simp
      ring
    · -- odd window: n = 2m + 1, halves sum to 2^(m+1) − 1 and 2^m − 1
      subst hm
      rw [show 2 * m + 1 = (m + 1) + m by omega, Finset.sum_range_add]
      have hfst : ∀ k ∈ Finset.range (m + 1),
          mid_distribution u s (s + 5 * ((m + 1) + m : ℕ) - 1) (s + 5 * k) 5 =
            u / midDenom ((m + 1) + m) * (2 : ℚ) ^ k := by
        intro k hk
        have hkm := Finset.mem_range.mp hk
        rw [mid_term_le u s ((m + 1) + m) k (by omega)]
        ring
      have hsnd : ∀ k ∈ Finset.range m,
          mid_distribution u s (s + 5 * ((m + 1) + m : ℕ) - 1)
              (s + 5 * (((m + 1) + k : ℕ) : ℚ)) 5 =
            u / midDenom ((m + 1) + m) * (2 : ℚ) ^ (m - 1 - k) := by
        intro k hk
        have hkm := Finset.mem_range.mp hk
        rw [mid_term_gt u s ((m + 1) + m) ((m + 1) + k) (by omega) (by omega),
          show (m + 1) + m - 1 - ((m + 1) + k) = m - 1 - k by omega]
        ring
      rw [Finset.sum_congr rfl hfst, Finset.sum_congr rfl hsnd,
        ← Finset.mul_sum, ← Finset.mul_sum,
        Finset.sum_range_reflect (fun k => (2 : ℚ) ^ k) m,
        sum_two_pow, sum_two_pow]
      have hDval : midDenom ((m + 1) + m) =
          ((2 : ℚ) ^ (m + 1) - 1) + ((2 : ℚ) ^ m - 1) := by
        rw [midDenom, show ((m + 1) + m + 1) / 2 = m + 1 by omega,
          show ((m + 1) + m) / 2 = m by omega]
      have h1 : (1 : ℚ) < 2 ^ (m + 1) := one_lt_pow₀ (by norm_num) (by omega)
      have h2 : (1 : ℚ) ≤ 2 ^ m := one_le_pow₀ (by norm_num)
      have hpos : (0 : ℚ) < ((2 : ℚ) ^ (m + 1) - 1) + ((2 : ℚ) ^ m - 1) := by
        linarith
      rw [hDval]
      field_simp
      ring

/-- Witness for C1 (amended) on a two-period window starting at year 0
with `total_unit = 1`. -/
theorem C1_buildout_conservation_witness :
    1 ≤ 2 ∧
    ((∑ k in Finset.range 2,
      flat_distribution 1 0 (0 + 5 * (2 : ℕ) - 1) (0 + 5 * (k : ℚ)) 5 = 1) ∧
    (∑ k in Finset.range 2,
      early_distribution 1 0 (0 + 5 * (2 : ℕ) - 1) (0 + 5 * (k : ℚ)) 5 = 1) ∧
    (∑ k in Finset.range 2,
      late_distribution 1 0 (0 + 5 * (2 : ℕ) - 1) (0 + 5 * (k : ℚ)) 5 = 1) ∧
    (∑ k in Finset.range 2,
      mid_distribution 1 0 (0 + 5 * (2 : ℕ) - 1) (0 + 5 * (k : ℚ)) 5 = 1)) :=
  ⟨by decide, C1_buildout_conservation 1 0 2 (by decide)⟩

end DLIT
